import Mathlib

/-!
Verification of the article scraping/enhancement system
(`backendTaskPhaseOne/scraper.js` and `nodeScriptPhaseTwo/index.js`).

The JavaScript code is shallowly embedded: a parsed-and-noise-stripped
cheerio DOM is abstracted as a `Doc` giving, for each CSS selector, the
text of the first matching element (`selText`), the `src` attribute of the
first matching element (`selSrc`, for image selectors; the outer `Option`
is "an element matched", the inner one is "it had a `src` attribute"), and
the full text of `<body>` (`bodyText`).  Network/parse failures of a fetch
are the `none` case of an `Option` input, mirroring each function's
`try/catch`.  JavaScript strings are Lean `String`s, `str.includes(p)` is
`containsSub str p`, `str.startsWith(p)` is `startsWith_ str p`,
`str.replace(/\s+/g, ' ')` is `collapseWs`, `str.trim()` is `trimWs`.
-/

/-- The character class of the JavaScript regex `\s` (ASCII part), used by
`content.replace(/\s+/g, ' ')` and `String.prototype.trim`. -/
def isWs (c : Char) : Bool :=
  c == ' ' || c == '\t' || c == '\n' || c == '\r' || c == '\x0b' || c == '\x0c'

/-- Core of `replace(/\s+/g, ' ')`: every maximal run of whitespace becomes
a single space. -/
def collapseList : List Char → List Char
  | [] => []
  | c :: rest =>
    if isWs c then
      match rest with
      | [] => [' ']
      | d :: _ => if isWs d then collapseList rest else ' ' :: collapseList rest
    else c :: collapseList rest

/-- JavaScript `str.replace(/\s+/g, ' ')`. -/
def collapseWs (s : String) : String := ⟨collapseList s.data⟩

/-- JavaScript `str.trim()`: strip leading and trailing whitespace. -/
def trimWs (s : String) : String :=
  ⟨((s.data.dropWhile isWs).reverse.dropWhile isWs).reverse⟩

/-- JavaScript `str.startsWith(p)`. -/
def startsWith_ (s p : String) : Bool := p.data.isPrefixOf s.data

/-- Scan helper for substring search: does `pat` occur contiguously in the
list? -/
def infixCheck (pat : List Char) : List Char → Bool
  | [] => pat.isEmpty
  | c :: rest => pat.isPrefixOf (c :: rest) || infixCheck pat rest

/-- JavaScript `str.includes(pat)`. -/
def containsSub (s pat : String) : Bool := infixCheck pat.data s.data

/-- Abstraction of a fetched page after `cheerio.load` and the noise
`remove()` call: per-selector first-match text, per-selector first-match
image `src`, and the `<body>` text. -/
structure Doc where
  selText : String → Option String
  selSrc : String → Option (Option String)
  bodyText : String

/-- The ordered content-selector list of `scrapeContentFromURL`
(`nodeScriptPhaseTwo/index.js`, lines 110-121). -/
def contentSelectors : List String :=
  ["article", "[role=\"main\"]", ".post-content", ".entry-content",
   ".article-content", ".article-body", ".content", "main", ".post-body",
   "[itemprop=\"articleBody\"]"]

/-- The shared shape of both content-selection loops
(`nodeScriptPhaseTwo/index.js` lines 123-132, threshold 500, and
`backendTaskPhaseOne/scraper.js` lines 168-174, threshold 200): for each
selector, if an element matches, overwrite the accumulator with its trimmed
text and stop once it exceeds the threshold. -/
def contentLoop (sel : String → Option String) (thr : Nat) :
    List String → String → String
  | [], cur => cur
  | s :: rest, cur =>
    match sel s with
    | some t =>
      let v := trimWs t
      if thr < v.length then v else contentLoop sel thr rest v
    | none => contentLoop sel thr rest cur

/-- `scrapeContentFromURL` lines 134-136: fall back to the whole `<body>`
text when the selected content is empty or shorter than 500 characters. -/
def selectBody2 (doc : Doc) : String :=
  let mc := contentLoop doc.selText 500 contentSelectors ""
  if mc = "" ∨ mc.length < 500 then trimWs doc.bodyText else mc

/-- `mainContent.substring(0, 4000)` guarded by the length test
(`scrapeContentFromURL` lines 140-142). -/
def truncate4000 (s : String) : String :=
  if 4000 < s.length then ⟨s.data.take 4000⟩ else s

/-- `scrapeContentFromURL` (`nodeScriptPhaseTwo/index.js` lines 87-151):
select body content, collapse whitespace, truncate to 4000 characters;
return `''` on any fetch/parse error (the `catch` branch). -/
def scrapeContentFromURL (input : Option Doc) : String :=
  match input with
  | none => ""
  | some doc => truncate4000 (trimWs (collapseWs (selectBody2 doc)))

/-- Rendering of the spec sentence "take the first selector whose text is
non-empty and exceeds the length threshold"; used to compare the code's
loop against the claimed selection rule. -/
def firstSufficientSelector (sel : String → Option String) (thr : Nat) :
    List String → Option String
  | [] => none
  | s :: rest =>
    match sel s with
    | some t =>
      if thr < (trimWs t).length then some (trimWs t)
      else firstSufficientSelector sel thr rest
    | none => firstSufficientSelector sel thr rest

/-! ## Phase-one harvesting scraper (`backendTaskPhaseOne/scraper.js`) -/

/-- Title selectors of `scrapeArticleContent` (lines 141-147). -/
def titleSelectors : List String :=
  ["h1", ".entry-title", ".post-title", "h1.title", "article h1"]

/-- Content selectors of `scrapeArticleContent` (lines 158-166). -/
def articleContentSelectors : List String :=
  ["article", ".entry-content", ".post-content", ".article-content",
   ".content", "main article", ".post-body"]

/-- Author selectors of `scrapeArticleContent` (lines 177-182). -/
def authorSelectors : List String :=
  [".author", ".by-author", ".post-author", ".author-name"]

/-- Image selectors of `scrapeArticleContent` (lines 193-198). -/
def imgSelectors : List String :=
  ["article img", ".post-thumbnail img", ".featured-image img", "img"]

/-- The title/author selection loops of `scrapeArticleContent` (lines
149-155 and 184-190): overwrite the accumulator with each match's trimmed
text, break on the first non-empty one. -/
def textLoop (sel : String → Option String) : List String → String → String
  | [], cur => cur
  | s :: rest, cur =>
    match sel s with
    | some t =>
      let v := trimWs t
      if v ≠ "" then v else textLoop sel rest v
    | none => textLoop sel rest cur

/-- The image selection loop of `scrapeArticleContent` (lines 200-211):
take the first matching element's `src`, prefixing the site origin when it
is relative; an element whose `src` is missing or empty does not break. -/
def imgLoop (selSrc : String → Option (Option String)) :
    List String → Option String → Option String
  | [], img => img
  | s :: rest, img =>
    match selSrc s with
    | none => imgLoop selSrc rest img
    | some src =>
      let img2 : Option String :=
        match src with
        | some u =>
          if u != "" && !(startsWith_ u "http") then
            some ("https://beyondchats.com" ++ u)
          else some u
        | none => none
      match img2 with
      | some u => if u ≠ "" then some u else imgLoop selSrc rest img2
      | none => imgLoop selSrc rest img2

/-- The record built by `scrapeArticleContent` (lines 220-227). -/
structure ArticleRecord where
  title : String
  content : String
  url : String
  author : String
  imageUrl : Option String
  type : String
deriving DecidableEq, Repr

/-- `scrapeArticleContent` (`backendTaskPhaseOne/scraper.js` lines
131-233): extract title/content/author/image, collapse whitespace in the
content, and discard the candidate (`null`) when the title is missing or
the content is shorter than 100 characters, or on any fetch error. -/
def scrapeArticleContent (url : String) (input : Option Doc) :
    Option ArticleRecord :=
  match input with
  | none => none
  | some doc =>
    let title := textLoop doc.selText titleSelectors ""
    let rawContent := contentLoop doc.selText 200 articleContentSelectors ""
    let author := textLoop doc.selText authorSelectors "Unknown"
    let imageUrl := imgLoop doc.selSrc imgSelectors none
    let content := trimWs (collapseWs rawContent)
    if title = "" ∨ content = "" ∨ content.length < 100 then none
    else some { title := title, content := content, url := url,
                author := author, imageUrl := imageUrl, type := "original" }

/-- The pagination pattern `/\/blogs\/page\/(\d+)/` of `findLastPage`
(line 63). -/
def pagePat : List Char := "/blogs/page/".data

/-- Maximal leading digit run (the greedy `(\d+)` capture). -/
def takeDigits : List Char → List Char
  | [] => []
  | c :: rest => if c.isDigit then c :: takeDigits rest else []

/-- `parseInt` on a non-empty decimal digit string. -/
def digitsToNat (ds : List Char) : Nat :=
  ds.foldl (fun n c => 10 * n + (c.toNat - 48)) 0

/-- Leftmost match of `/\/blogs\/page\/(\d+)/` in a string, returning the
parsed captured number: at each position the literal part must be followed
by at least one digit, otherwise the scan continues. -/
def matchPageNum : List Char → Option Nat
  | [] => none
  | c :: rest =>
    if pagePat.isPrefixOf (c :: rest) then
      let ds := takeDigits ((c :: rest).drop pagePat.length)
      if ds = [] then matchPageNum rest else some (digitsToNat ds)
    else matchPageNum rest

/-- One step of the `$('a').each` scan of `findLastPage` (lines 60-72):
skip falsy hrefs, keep the running maximum of matched page numbers. -/
def pageStep (lastPage : Nat) (href : String) : Nat :=
  if href = "" then lastPage
  else
    match matchPageNum href.data with
    | some n => if lastPage < n then n else lastPage
    | none => lastPage

/-- `findLastPage` (`backendTaskPhaseOne/scraper.js` lines 53-81): scan all
anchor hrefs starting from the default `1`; any failure also yields `1`.
The input is the listing page's anchor `href` list (`none` on a fetch
failure). -/
def findLastPage (input : Option (List String)) : Nat :=
  match input with
  | none => 1
  | some hrefs => hrefs.foldl pageStep 1

/-- The page numbers appearing in anchors matching the pagination pattern,
in document order (used to state what "the maximum page number observed"
is). -/
def pageNumbers (hrefs : List String) : List Nat :=
  hrefs.filterMap (fun h => if h = "" then none else matchPageNum h.data)

/-- Link selectors of `scrapeArticleLinks` (lines 90-99). -/
def linkSelectors : List String :=
  ["article a", ".post a", ".blog-post a", ".entry a", "h2 a", "h3 a",
   ".post-title a", ".entry-title a"]

/-- Resolution of a relative href against the site origin
(`scrapeArticleLinks` lines 106-108). -/
def resolveHref (href : String) : String :=
  if startsWith_ href "http" then href
  else "https://beyondchats.com" ++
    (if startsWith_ href "/" then href else "/" ++ href)

/-- One anchor of the `$(selector).each` body of `scrapeArticleLinks`
(lines 102-115): keep hrefs that are truthy, contain `blog`, contain no
`#`; resolve them and skip duplicates. -/
def harvestStep (acc : List String) (href : String) : List String :=
  if href != "" && containsSub href "blog" && !(containsSub href "#") then
    let r := resolveHref href
    if r ∈ acc then acc else acc ++ [r]
  else acc

/-- The selector loop of `scrapeArticleLinks` (lines 101-119): process each
selector's anchors in order, stopping after the first selector at which at
least 5 links have been collected. -/
def harvestLoop (anchors : String → List String) :
    List String → List String → List String
  | [], acc => acc
  | s :: rest, acc =>
    let acc2 := (anchors s).foldl harvestStep acc
    if 5 ≤ acc2.length then acc2 else harvestLoop anchors rest acc2

/-- `scrapeArticleLinks` (`backendTaskPhaseOne/scraper.js` lines 84-128):
harvest at most 5 article links (`slice(0, 5)`); `[]` on any failure.  The
input maps each selector to the hrefs of its matched anchors in document
order (`none` on a fetch failure). -/
def scrapeArticleLinks (input : Option (String → List String)) :
    List String :=
  match input with
  | none => []
  | some anchors => (harvestLoop anchors linkSelectors []).take 5

/-- The save loop of `scrapeArticles` (lines 278-291): the database is
abstracted as the list of stored records; `Article.findOne({ url })` is a
lookup by the `url` field and `Article.create` appends. -/
def saveArticlesLoop (db : List ArticleRecord) :
    List ArticleRecord → List ArticleRecord
  | [] => db
  | a :: rest =>
    if db.any (fun r => r.url == a.url) then saveArticlesLoop db rest
    else saveArticlesLoop (db ++ [a]) rest

/-! ## Phase-two enhancement pipeline (`nodeScriptPhaseTwo/index.js`) -/

/-- The validity filter of `searchGoogleForArticle` (lines 62-68), minus
the running-count gate which depends on the accumulator. -/
def linkOk (url : String) : Bool :=
  url != "" && startsWith_ url "http" &&
  !(containsSub url "youtube.com") && !(containsSub url "facebook.com")

/-- The `response.data.items.forEach` accumulation of
`searchGoogleForArticle` (lines 57-75): push each valid link while fewer
than 2 have been collected. -/
def collectLinks : List String → List String → List String
  | [], acc => acc
  | url :: rest, acc =>
    if linkOk url && decide (acc.length < 2) then collectLinks rest (acc ++ [url])
    else collectLinks rest acc

/-- `searchGoogleForArticle` (`nodeScriptPhaseTwo/index.js` lines 38-84):
the input is the search response's `items[*].link` list (a missing `link`
is `""`, matching the falsy check), or `none` on an API error, in which
case the result is `[]`. -/
def searchGoogleForArticle (resp : Option (List String)) : List String :=
  match resp with
  | none => []
  | some items => collectLinks items []

/-- A scraped reference `{ url, content }` (transient, line 285). -/
structure Reference where
  url : String
  content : String
deriving DecidableEq, Repr

/-- The reference filter of `processOneArticle` (line 284):
`content && content.length > 500`. -/
def keepRef (content : String) : Bool :=
  content != "" && decide (500 < content.length)

/-- The reference-scraping loop of `processOneArticle` (lines 279-289):
scrape each URL and keep the ones passing `keepRef`. -/
def buildReferences (scrape : String → String) :
    List String → List Reference → List Reference
  | [], acc => acc
  | url :: rest, acc =>
    let content := scrape url
    if keepRef content then
      buildReferences scrape rest (acc ++ [⟨url, content⟩])
    else buildReferences scrape rest acc

/-- The citation block appended by `processOneArticle` (lines 313-324). -/
def referencesSection (refs : List Reference) : String :=
  "\n\n---\n\n## References\n\nThis article was enhanced based on insights from:\n\n"
  ++ String.intercalate "\n"
       (refs.enum.map (fun p =>
         toString (p.1 + 1) ++ ". [Source " ++ toString (p.1 + 1) ++ "]("
           ++ p.2.url ++ ")"))
  ++ "\n\n*Enhanced by AI for improved SEO and readability.*\n"

/-- The record assembled by `processOneArticle`/`saveEnhancedArticle`
(lines 241-247 and 326-335). -/
structure EnhancedArticle where
  title : String
  content : String
  type : String
  originalArticleId : String
  references : List String
deriving DecidableEq, Repr

/-- An original article as fetched from the API (the fields
`processOneArticle` reads). -/
structure ArticleIn where
  id : String
  title : String
  content : String

/-- The external collaborators of one `processOneArticle` run: the search
API response, the per-URL fetch results, the generation service (a black
box per the spec, `null` on failure), and whether the persistence `POST`
succeeds. -/
structure OracleEnv where
  searchResp : Option (List String)
  scrape : String → Option Doc
  ai : String → String → List Reference → Option String
  saveOk : Bool

/-- Observable outcome of one `processOneArticle` run: the returned
`{ success, reason }` object, whether the Enhancer was invoked, whether a
persistence call was made, and the record passed to persistence. -/
structure PipeOutcome where
  success : Bool
  reason : Option String
  enhancerCalled : Bool
  saveCalled : Bool
  savedRecord : Option EnhancedArticle
deriving DecidableEq, Repr

/-- The record `saveEnhancedArticle` posts (lines 241-247), built from the
enhanced text and surviving references as in lines 326-335. -/
def mkEnhanced (a : ArticleIn) (enhanced : String) (refs : List Reference) :
    EnhancedArticle :=
  { title := a.title ++ " (Enhanced)",
    content := enhanced ++ referencesSection refs,
    type := "updated",
    originalArticleId := a.id,
    references := refs.map Reference.url }

/-- `processOneArticle` (`nodeScriptPhaseTwo/index.js` lines 261-351):
search, scrape references, enhance, append citations, save — each stage
aborting with the code's literal skip reason. -/
def processOneArticle (a : ArticleIn) (env : OracleEnv) : PipeOutcome :=
  let googleResults := searchGoogleForArticle env.searchResp
  if googleResults.length = 0 then
    { success := false, reason := some "No Google results",
      enhancerCalled := false, saveCalled := false, savedRecord := none }
  else
    let refs := buildReferences
      (fun u => scrapeContentFromURL (env.scrape u)) googleResults []
    if refs.length = 0 then
      { success := false, reason := some "Scraping failed",
        enhancerCalled := false, saveCalled := false, savedRecord := none }
    else
      match env.ai a.title a.content refs with
      | none =>
        { success := false, reason := some "AI failed",
          enhancerCalled := true, saveCalled := false, savedRecord := none }
      | some enhanced =>
        let record := mkEnhanced a enhanced refs
        if env.saveOk then
          { success := true, reason := none,
            enhancerCalled := true, saveCalled := true,
            savedRecord := some record }
        else
          { success := false, reason := some "Save failed",
            enhancerCalled := true, saveCalled := true,
            savedRecord := some record }

/-! ## Helper lemmas -/

theorem foldl_inv {α β : Type} (inv : β → Prop) (step : β → α → β)
    (h : ∀ b a, inv b → inv (step b a)) :
    ∀ (l : List α) (b : β), inv b → inv (l.foldl step b) := by
  intro l
  induction l with
  | nil => intro b hb; exact hb
  | cons a rest ih => intro b hb; exact ih _ (h b a hb)

theorem isPrefixOfBool_iff : ∀ (p l : List Char), p.isPrefixOf l = true ↔ p <+: l := by
  intro p
  induction p with
  | nil => intro l; simp [List.isPrefixOf]
  | cons a as ih =>
    intro l
    cases l with
    | nil => simp [List.isPrefixOf]
    | cons b bs =>
      simp [List.isPrefixOf, Bool.and_eq_true, beq_iff_eq, ih,
        List.cons_prefix_cons]

theorem infixCheck_iff (p : List Char) : ∀ l, infixCheck p l = true ↔ p <:+: l := by
  intro l
  induction l with
  | nil => simp [infixCheck, List.infix_nil, List.isEmpty_iff]
  | cons c rest ih =>
    simp [infixCheck, Bool.or_eq_true, isPrefixOfBool_iff, ih, List.infix_cons_iff]

theorem containsSub_iff (s pat : String) :
    containsSub s pat = true ↔ pat.data <:+: s.data := infixCheck_iff _ _

theorem startsWith_iff (s p : String) :
    startsWith_ s p = true ↔ p.data <+: s.data := isPrefixOfBool_iff _ _

theorem singleton_infix_iff (c : Char) (l : List Char) : [c] <:+: l ↔ c ∈ l := by
  constructor
  · intro h; exact h.sublist.subset (List.mem_singleton_self c)
  · intro h
    obtain ⟨s, t, rfl⟩ := List.append_of_mem h
    exact ⟨s, t, by simp⟩

theorem containsSub_hash_iff (s : String) :
    containsSub s "#" = true ↔ '#' ∈ s.data := by
  rw [containsSub_iff]
  have h : ("#" : String).data = ['#'] := rfl
  rw [h, singleton_infix_iff]

theorem containsSub_appendR (s t pat : String) (h : containsSub t pat = true) :
    containsSub (s ++ t) pat = true := by
  rw [containsSub_iff] at h ⊢
  rw [String.data_append]
  obtain ⟨u, v, huv⟩ := h
  exact ⟨s.data ++ u, v, by rw [← huv]; simp⟩

theorem startsWith_appendL (s t p : String) (h : startsWith_ s p = true) :
    startsWith_ (s ++ t) p = true := by
  rw [startsWith_iff] at h ⊢
  rw [String.data_append]
  exact h.trans (List.prefix_append _ _)

theorem firstSufficient_gt (sel : String → Option String) (thr : Nat) :
    ∀ (ss : List String) (v : String),
      firstSufficientSelector sel thr ss = some v → thr < v.length := by
  intro ss
  induction ss with
  | nil => intro v h; simp [firstSufficientSelector] at h
  | cons s rest ih =>
    intro v h
    cases hs : sel s with
    | none =>
      simp only [firstSufficientSelector, hs] at h
      exact ih v h
    | some t =>
      simp only [firstSufficientSelector, hs] at h
      by_cases hlen : thr < (trimWs t).length
      · rw [if_pos hlen] at h
        injection h with h
        rw [← h]; exact hlen
      · rw [if_neg hlen] at h; exact ih v h

theorem contentLoop_of_firstSufficient (sel : String → Option String) (thr : Nat) :
    ∀ (ss : List String) (cur v : String),
      firstSufficientSelector sel thr ss = some v →
      contentLoop sel thr ss cur = v := by
  intro ss
  induction ss with
  | nil => intro cur v h; simp [firstSufficientSelector] at h
  | cons s rest ih =>
    intro cur v h
    cases hs : sel s with
    | none =>
      simp only [firstSufficientSelector, hs] at h
      simp only [contentLoop, hs]
      exact ih cur v h
    | some t =>
      simp only [firstSufficientSelector, hs] at h
      simp only [contentLoop, hs]
      by_cases hlen : thr < (trimWs t).length
      · rw [if_pos hlen] at h ⊢
        injection h
      · rw [if_neg hlen] at h ⊢; exact ih _ v h

theorem contentLoop_origin (sel : String → Option String) (thr : Nat) :
    ∀ (ss : List String) (cur : String),
      contentLoop sel thr ss cur = cur ∨
        ∃ s ∈ ss, ∃ t, sel s = some t ∧ contentLoop sel thr ss cur = trimWs t := by
  intro ss
  induction ss with
  | nil => intro cur; left; rfl
  | cons s rest ih =>
    intro cur
    cases hs : sel s with
    | none =>
      simp only [contentLoop, hs]
      rcases ih cur with h | ⟨s', hs', t, ht, he⟩
      · left; exact h
      · right; exact ⟨s', by simp [hs'], t, ht, he⟩
    | some t =>
      simp only [contentLoop, hs]
      by_cases hlen : thr < (trimWs t).length
      · rw [if_pos hlen]
        right; exact ⟨s, by simp, t, hs, rfl⟩
      · rw [if_neg hlen]
        rcases ih (trimWs t) with h | ⟨s', hs', t', ht', he⟩
        · right; exact ⟨s, by simp, t, hs, h⟩
        · right; exact ⟨s', by simp [hs'], t', ht', he⟩

theorem contentLoop_le (sel : String → Option String) (thr : Nat) :
    ∀ (ss : List String) (cur : String),
      firstSufficientSelector sel thr ss = none → cur.length ≤ thr →
      (contentLoop sel thr ss cur).length ≤ thr := by
  intro ss
  induction ss with
  | nil => intro cur _ hcur; exact hcur
  | cons s rest ih =>
    intro cur hnone hcur
    cases hs : sel s with
    | none =>
      simp only [firstSufficientSelector, hs] at hnone
      simp only [contentLoop, hs]
      exact ih cur hnone hcur
    | some t =>
      simp only [firstSufficientSelector, hs] at hnone
      simp only [contentLoop, hs]
      by_cases hlen : thr < (trimWs t).length
      · rw [if_pos hlen] at hnone; exact absurd hnone (by simp)
      · rw [if_neg hlen] at hnone ⊢
        exact ih _ hnone (Nat.le_of_not_lt hlen)

theorem collectLinks_eq : ∀ (items acc : List String), acc.length ≤ 2 →
    collectLinks items acc =
      acc ++ (items.filter linkOk).take (2 - acc.length) := by
  intro items
  induction items with
  | nil => intro acc _; simp [collectLinks]
  | cons url rest ih =>
    intro acc hacc
    simp only [collectLinks, List.filter_cons]
    by_cases hok : linkOk url = true
    · by_cases hlen : acc.length < 2
      · rw [if_pos (by simp [hok, hlen])]
        rw [ih (acc ++ [url]) (by simp; omega)]
        have h2 : 2 - acc.length = (2 - (acc ++ [url]).length) + 1 := by
          simp; omega
        simp only [hok, if_pos rfl, h2, List.take_succ_cons]
        simp
      · have hlen2 : acc.length = 2 := by omega
        rw [if_neg (by simp [hlen])]
        rw [ih acc hacc]
        simp [hok, hlen2]
    · rw [if_neg (by simp [hok])]
      rw [ih acc hacc]
      simp [hok]

theorem searchGoogle_eq (items : List String) :
    searchGoogleForArticle (some items) = (items.filter linkOk).take 2 := by
  have h := collectLinks_eq items [] (by simp)
  simpa [searchGoogleForArticle] using h

theorem buildReferences_eq (scrape : String → String) :
    ∀ (urls : List String) (acc : List Reference),
      buildReferences scrape urls acc =
        acc ++ (urls.filter (fun u => keepRef (scrape u))).map
          (fun u => ⟨u, scrape u⟩) := by
  intro urls
  induction urls with
  | nil => intro acc; simp [buildReferences]
  | cons url rest ih =>
    intro acc
    simp only [buildReferences, List.filter_cons]
    by_cases h : keepRef (scrape url) = true
    · rw [if_pos h, ih, if_pos h]
      simp
    · rw [if_neg h, ih, if_neg h]

theorem findLastPage_foldl : ∀ (hrefs : List String) (acc : Nat),
    hrefs.foldl pageStep acc = (pageNumbers hrefs).foldl max acc := by
  intro hrefs
  induction hrefs with
  | nil => intro acc; rfl
  | cons h rest ih =>
    intro acc
    simp only [List.foldl_cons, pageNumbers, List.filterMap_cons]
    by_cases he : h = ""
    · simp only [pageStep, he, if_pos rfl]
      exact ih acc
    · simp only [pageStep, if_neg he]
      cases hm : matchPageNum h.data with
      | none => exact ih acc
      | some n =>
        simp only [List.foldl_cons]
        have hmax : (if acc < n then n else acc) = max acc n := by
          rcases Nat.lt_or_ge acc n with hlt | hge
          · rw [if_pos hlt, Nat.max_eq_right (Nat.le_of_lt hlt)]
          · rw [if_neg (Nat.not_lt.mpr hge), Nat.max_eq_left hge]
        rw [hmax]
        exact ih (max acc n)

/-- The per-URL filter invariant of `scrapeArticleLinks` results. -/
def goodUrl (u : String) : Prop :=
  containsSub u "blog" = true ∧ containsSub u "#" = false ∧
  startsWith_ u "http" = true

theorem resolveHref_good (href : String) (hb : containsSub href "blog" = true)
    (hh : containsSub href "#" = false) : goodUrl (resolveHref href) := by
  unfold resolveHref
  by_cases hstart : startsWith_ href "http" = true
  · rw [if_pos hstart]; exact ⟨hb, hh, hstart⟩
  · rw [if_neg hstart]
    have hx : ∀ x : String, containsSub x "blog" = true → containsSub x "#" = false →
        goodUrl ("https://beyondchats.com" ++ x) := by
      intro x hxb hxh
      refine ⟨containsSub_appendR _ _ _ hxb, ?_, ?_⟩
      · rw [← Bool.not_eq_true, containsSub_hash_iff, String.data_append]
        intro hmem
        rcases List.mem_append.mp hmem with h1 | h2
        · exact absurd h1 (by decide)
        · rw [← containsSub_hash_iff] at h2
          rw [hxh] at h2
          exact Bool.false_ne_true h2
      · exact startsWith_appendL _ _ _ (by decide)
    by_cases hslash : startsWith_ href "/" = true
    · rw [if_pos hslash]; exact hx href hb hh
    · rw [if_neg hslash]
      refine hx _ (containsSub_appendR _ _ _ hb) ?_
      rw [← Bool.not_eq_true, containsSub_hash_iff, String.data_append]
      intro hmem
      rcases List.mem_append.mp hmem with h1 | h2
      · exact absurd h1 (by decide)
      · rw [← containsSub_hash_iff] at h2
        rw [hh] at h2
        exact Bool.false_ne_true h2

theorem harvestStep_inv (acc : List String) (href : String)
    (h : acc.Nodup ∧ ∀ u ∈ acc, goodUrl u) :
    (harvestStep acc href).Nodup ∧ ∀ u ∈ harvestStep acc href, goodUrl u := by
  unfold harvestStep
  by_cases hc : (href != "" && containsSub href "blog" && !(containsSub href "#")) = true
  · rw [if_pos hc]
    simp only [Bool.and_eq_true, Bool.not_eq_true'] at hc
    by_cases hmem : resolveHref href ∈ acc
    · rw [if_pos hmem]; exact h
    · rw [if_neg hmem]
      have hgood : goodUrl (resolveHref href) := resolveHref_good href hc.1.2 hc.2
      constructor
      · rw [List.nodup_append]
        refine ⟨h.1, by simp, ?_⟩
        intro a ha hb
        simp only [List.mem_singleton] at hb
        subst hb
        exact hmem ha
      · intro u hu
        rcases List.mem_append.mp hu with h1 | h2
        · exact h.2 u h1
        · simp only [List.mem_singleton] at h2
          subst h2
          exact hgood
  · rw [if_neg hc]; exact h

theorem harvestLoop_inv (anchors : String → List String) :
    ∀ (ss : List String) (acc : List String),
      (acc.Nodup ∧ ∀ u ∈ acc, goodUrl u) →
      ((harvestLoop anchors ss acc).Nodup ∧
        ∀ u ∈ harvestLoop anchors ss acc, goodUrl u) := by
  intro ss
  induction ss with
  | nil => intro acc h; exact h
  | cons s rest ih =>
    intro acc h
    simp only [harvestLoop]
    have h2 := foldl_inv _ harvestStep (fun b a hb => harvestStep_inv b a hb)
      (anchors s) acc h
    by_cases hlen : 5 ≤ ((anchors s).foldl harvestStep acc).length
    · rw [if_pos hlen]; exact h2
    · rw [if_neg hlen]; exact ih _ h2

theorem length_mk (l : List Char) : (String.mk l).length = l.length := rfl

theorem collapseList_replicate (n : Nat) (c : Char) (hc : isWs c = false) :
    collapseList (List.replicate n c) = List.replicate n c := by
  induction n with
  | zero => rfl
  | succ m ih =>
    rw [List.replicate_succ]
    simp only [collapseList, hc]
    simp [ih]

theorem trimWs_replicate (n : Nat) (c : Char) (hc : isWs c = false) :
    trimWs (String.mk (List.replicate n c)) = String.mk (List.replicate n c) := by
  have hdrop : List.dropWhile isWs (List.replicate n c) = List.replicate n c := by
    cases n with
    | zero => rfl
    | succ m =>
      rw [List.replicate_succ, List.dropWhile_cons, hc]
      simp
  have hdata : (((List.replicate n c).dropWhile isWs).reverse.dropWhile
      isWs).reverse = List.replicate n c := by
    rw [hdrop, List.reverse_replicate, hdrop, List.reverse_replicate]
  show String.mk ((((List.replicate n c).dropWhile isWs).reverse.dropWhile
    isWs).reverse) = String.mk (List.replicate n c)
  exact congrArg String.mk hdata

theorem contentLoop_break (sel : String → Option String) (thr : Nat)
    (s : String) (rest : List String) (cur t : String)
    (hs : sel s = some t) (hlen : thr < (trimWs t).length) :
    contentLoop sel thr (s :: rest) cur = trimWs t := by
  simp only [contentLoop, hs]
  rw [if_pos hlen]

/-! ## Claim C2 (Extractor truncation cap) -/

/-- A 4001-character article body. -/
def aStr : String := String.mk (List.replicate 4001 'a')

/-- A page whose first content selector holds 4001 non-whitespace
characters, fed to the harvesting extractor. -/
def c2Doc : Doc :=
  { selText := fun s =>
      if s = "h1" then some "Title"
      else if s = "article" then some aStr
      else none,
    selSrc := fun _ => none,
    bodyText := "" }

/-- The harvesting extractor's output on `c2Doc`. -/
def c2Result : Option ArticleRecord :=
  scrapeArticleContent "https://beyondchats.com/blogs/x" (some c2Doc)

/-- C2 counterexample: the harvesting Extractor (`scrapeArticleContent`)
returns a record whose body content has 4001 characters — longer than the
4000-character truncation cap, which only the AI-pipeline scrape applies.
This falsifies the claim as stated over both extractors. -/
theorem extractor_truncation_cex :
    c2Result.map (fun r => r.content.length) = some 4001 := by
  have hwsa : isWs 'a' = false := by decide
  have htrim : trimWs aStr = aStr := trimWs_replicate 4001 'a' hwsa
  have hlenA : aStr.length = 4001 := by
    show (String.mk (List.replicate 4001 'a')).length = 4001
    rw [length_mk, List.length_replicate]
  have hselA : c2Doc.selText "article" = some aStr := rfl
  have hloop : contentLoop c2Doc.selText 200 articleContentSelectors "" = aStr := by
    have h := contentLoop_break c2Doc.selText 200 "article"
      [".entry-content", ".post-content", ".article-content", ".content",
        "main article", ".post-body"] "" aStr hselA
      (by rw [htrim, hlenA]; omega)
    rw [htrim] at h
    exact h
  have hcontent : trimWs (collapseWs
      (contentLoop c2Doc.selText 200 articleContentSelectors "")) = aStr := by
    rw [hloop]
    have hc : collapseWs aStr = aStr := by
      show String.mk (collapseList (List.replicate 4001 'a')) = aStr
      rw [collapseList_replicate 4001 'a' hwsa]
      rfl
    rw [hc, htrim]
  have htitle : textLoop c2Doc.selText titleSelectors "" = "Title" := by decide
  have hauthor : textLoop c2Doc.selText authorSelectors "Unknown" = "Unknown" := by
    decide
  have himg : imgLoop c2Doc.selSrc imgSelectors none = none := by decide
  have hcond : ¬("Title" = "" ∨ aStr = "" ∨ aStr.length < 100) := by
    intro h
    rcases h with h | h | h
    · exact absurd h (by decide)
    · have h2 := hlenA
      rw [h] at h2
      exact absurd h2 (by decide)
    · rw [hlenA] at h
      omega
  have hrec : scrapeArticleContent "https://beyondchats.com/blogs/x" (some c2Doc) =
      some { title := "Title", content := aStr,
             url := "https://beyondchats.com/blogs/x", author := "Unknown",
             imageUrl := none, type := "original" } := by
    simp only [scrapeArticleContent]
    rw [htitle, hcontent, hauthor, himg, if_neg hcond]
  show (scrapeArticleContent "https://beyondchats.com/blogs/x"
    (some c2Doc)).map (fun r => r.content.length) = some 4001
  rw [hrec]
  simp [hlenA]

/-- C2 amended: the AI-pipeline Extractor (`scrapeContentFromURL`) never
returns body content longer than 4000 characters, for every input
(including the error case); the harvesting extractor applies no such
truncation. -/
theorem extractor_truncation_amended :
    ∀ input : Option Doc, (scrapeContentFromURL input).length ≤ 4000 := by
  intro input
  cases input with
  | none => simp [scrapeContentFromURL]
  | some doc =>
    simp only [scrapeContentFromURL, truncate4000]
    by_cases h : 4000 < (trimWs (collapseWs (selectBody2 doc))).length
    · rw [if_pos h, length_mk, List.length_take]
      exact Nat.min_le_left _ _
    · rw [if_neg h]
      omega

/-! ## Claim C7 (PaginationProbe maximum) -/

/-- C7 counterexample: on a listing page whose only pagination anchor is
`/blogs/page/0`, an anchor matches the page-number pattern and the maximum
matched page number is 0, yet `findLastPage` returns 1 — so the function
does not return "the maximum page number appearing in any matching
anchor". -/
theorem paginationProbe_cex :
    findLastPage (some ["/blogs/page/0"]) = 1 ∧
      pageNumbers ["/blogs/page/0"] = [0] := by decide

/-- C7 amended: `findLastPage` returns the maximum of 1 and all page
numbers matched by the `/blogs/page/(\d+)` pattern (so 1 when no anchor
matches, and also when every matched number is 0), returns 1 on any
failure, and returns 5 on the scenario page with links `page/2`, `page/5`,
`page/3`. -/
theorem paginationProbe_max_amended :
    (∀ hrefs : List String,
        findLastPage (some hrefs) = (pageNumbers hrefs).foldl max 1)
    ∧ findLastPage none = 1
    ∧ findLastPage
        (some ["/blogs/page/2", "/blogs/page/5", "/blogs/page/3"]) = 5 := by
  refine ⟨?_, rfl, by decide⟩
  intro hrefs
  exact findLastPage_foldl hrefs 1

/-! ## Claim C3 (ReferenceFinder filtering and cap) -/

/-- C3: `searchGoogleForArticle` keeps exactly the first two API items
passing the validity filter, in response order (it equals
`filter`-then-`take 2`); hence its output has length ≤ 2, every returned
URL is non-empty, starts with `http`, and avoids the youtube/facebook
substrings; the output is a subsequence of the response (no re-ranking);
and an API error yields `[]`. -/
theorem referenceFinder_filter_cap :
    (∀ items, searchGoogleForArticle (some items) = (items.filter linkOk).take 2)
    ∧ searchGoogleForArticle none = []
    ∧ (∀ resp, (searchGoogleForArticle resp).length ≤ 2)
    ∧ (∀ resp u, u ∈ searchGoogleForArticle resp →
        u ≠ "" ∧ startsWith_ u "http" = true ∧
        containsSub u "youtube.com" = false ∧
        containsSub u "facebook.com" = false)
    ∧ (∀ items, List.Sublist (searchGoogleForArticle (some items)) items) := by
  refine ⟨searchGoogle_eq, rfl, ?_, ?_, ?_⟩
  · intro resp
    cases resp with
    | none => simp [searchGoogleForArticle]
    | some items =>
      rw [searchGoogle_eq]
      calc ((items.filter linkOk).take 2).length
          = min 2 (items.filter linkOk).length := List.length_take _ _
        _ ≤ 2 := Nat.min_le_left _ _
  · intro resp u hu
    cases resp with
    | none => simp [searchGoogleForArticle] at hu
    | some items =>
      rw [searchGoogle_eq] at hu
      have h2 : u ∈ items.filter linkOk := List.mem_of_mem_take hu
      have h3 : linkOk u = true := (List.mem_filter.mp h2).2
      simp only [linkOk, Bool.and_eq_true, Bool.not_eq_true', bne_iff_ne] at h3
      exact ⟨h3.1.1.1, h3.1.1.2, h3.1.2, h3.2⟩
  · intro items
    rw [searchGoogle_eq]
    exact (List.take_sublist _ _).trans (List.filter_sublist _)

/-! ## Claim C1 (body-content selector cascade) -/

/-- C1 amended: both content loops take the first selector whose trimmed
text exceeds the threshold (500 for the AI pipeline, 200 for harvesting);
a too-short match makes the loop continue while remembering the *most
recent* matching selector's text (possibly empty — not the first non-empty
one); in the AI-pipeline scrape the whole-`<body>` fallback applies exactly
when the remembered text is empty or shorter than 500 characters (so a
remembered text of exactly 500 characters is returned without the body
fallback); the harvesting scrape never reads the body text at all. -/
theorem extractor_body_selection_amended :
    ∀ doc : Doc,
      (∀ v, firstSufficientSelector doc.selText 500 contentSelectors = some v →
        selectBody2 doc = v)
      ∧ (firstSufficientSelector doc.selText 500 contentSelectors = none →
          (contentLoop doc.selText 500 contentSelectors "").length ≤ 500)
      ∧ (contentLoop doc.selText 500 contentSelectors "" = "" ∨
          (contentLoop doc.selText 500 contentSelectors "").length < 500 →
            selectBody2 doc = trimWs doc.bodyText)
      ∧ (¬ contentLoop doc.selText 500 contentSelectors "" = "" →
          ¬ (contentLoop doc.selText 500 contentSelectors "").length < 500 →
            selectBody2 doc = contentLoop doc.selText 500 contentSelectors "")
      ∧ (contentLoop doc.selText 500 contentSelectors "" = "" ∨
          ∃ s ∈ contentSelectors, ∃ t, doc.selText s = some t ∧
            contentLoop doc.selText 500 contentSelectors "" = trimWs t)
      ∧ (∀ (f : String → Option String) v,
          firstSufficientSelector f 200 articleContentSelectors = some v →
            contentLoop f 200 articleContentSelectors "" = v)
      ∧ (∀ url b, scrapeArticleContent url (some { doc with bodyText := b }) =
          scrapeArticleContent url (some doc)) := by
  intro doc
  refine ⟨?_, ?_, ?_, ?_, ?_, ?_, ?_⟩
  · intro v h
    have hgt := firstSufficient_gt _ _ _ _ h
    have hloop := contentLoop_of_firstSufficient _ _ _ "" _ h
    have hne : ¬(v = "" ∨ v.length < 500) := by
      intro hor
      rcases hor with h1 | h1
      · rw [h1] at hgt; exact absurd hgt (by decide)
      · omega
    simp only [selectBody2]
    rw [hloop, if_neg hne]
  · intro h
    exact contentLoop_le _ _ _ "" h (by decide)
  · intro h
    simp only [selectBody2]
    rw [if_pos h]
  · intro h1 h2
    simp only [selectBody2]
    rw [if_neg (by intro hor; rcases hor with h | h; exacts [h1 h, h2 h])]
  · exact contentLoop_origin _ _ _ ""
  · intro f v h
    exact contentLoop_of_firstSufficient _ _ _ "" v h
  · intro url b
    rfl

/-- A 500-character selector text: too short to "exceed the threshold",
long enough to dodge the body fallback. -/
def bStr : String := String.mk (List.replicate 500 'b')

/-- A page where the first matching selector yields `"aaa"`, a later one
yields exactly 500 characters, and the body text is different from both. -/
def c1Doc : Doc :=
  { selText := fun s =>
      if s = "article" then some "aaa"
      else if s = ".post-content" then some bStr
      else none,
    selSrc := fun _ => none,
    bodyText := "BODY BODY" }

set_option maxRecDepth 40000 in
/-- C1 counterexample: on `c1Doc` no selector's text exceeds the
500-character threshold (second conjunct), so the claim requires the
result to be the whole-body text (and remembers `"aaa"`, the first
non-empty selector result, as the fallback) — but `scrapeContentFromURL`
returns the *later* `.post-content` text of exactly 500 characters, which
is neither the processed body text nor the first non-empty result. -/
theorem extractor_body_selection_cex :
    scrapeContentFromURL (some c1Doc) = bStr ∧
      firstSufficientSelector c1Doc.selText 500 contentSelectors = none ∧
      bStr ≠ trimWs (collapseWs (trimWs c1Doc.bodyText)) ∧
      c1Doc.selText "article" = some "aaa" ∧
      bStr ≠ trimWs "aaa" := by decide

/-- A page whose first content selector yields 501 characters. -/
def c1wDoc : Doc :=
  { selText := fun s =>
      if s = "article" then some (String.mk (List.replicate 501 'x'))
      else none,
    selSrc := fun _ => none,
    bodyText := "" }

set_option maxRecDepth 40000 in
/-- C1 witness: the amended theorem applied at `c1wDoc`, whose first
selector text exceeds 500 characters. -/
theorem extractor_body_selection_witness :
    selectBody2 c1wDoc = String.mk (List.replicate 501 'x') :=
  (extractor_body_selection_amended c1wDoc).1
    (String.mk (List.replicate 501 'x')) (by decide)

/-- C3 witness at a concrete response. -/
theorem referenceFinder_filter_cap_witness :
    "https://example.com/a" ≠ "" ∧
      startsWith_ "https://example.com/a" "http" = true ∧
      containsSub "https://example.com/a" "youtube.com" = false ∧
      containsSub "https://example.com/a" "facebook.com" = false :=
  referenceFinder_filter_cap.2.2.2.1 (some ["https://example.com/a"])
    "https://example.com/a" (by decide)

/-! ## Claim C5 (skip on zero search results) -/

/-- C5: when the search stage yields zero URLs, `processOneArticle`
returns the code's skip outcome `{ success: false, reason: 'No Google
results' }` — the realization of the spec's SKIPPED("no search results")
state — and the Enhancer is never invoked and no persistence call occurs. -/
theorem skip_on_no_search_results :
    ∀ (a : ArticleIn) (env : OracleEnv),
      searchGoogleForArticle env.searchResp = [] →
      (processOneArticle a env).success = false ∧
      (processOneArticle a env).reason = some "No Google results" ∧
      (processOneArticle a env).enhancerCalled = false ∧
      (processOneArticle a env).saveCalled = false ∧
      (processOneArticle a env).savedRecord = none := by
  intro a env h
  simp [processOneArticle, h]

/-- An environment whose search API errors out. -/
def c5Env : OracleEnv :=
  { searchResp := none, scrape := fun _ => none,
    ai := fun _ _ _ => none, saveOk := false }

/-- An arbitrary original article. -/
def c5Article : ArticleIn := { id := "1", title := "T", content := "C" }

/-- C5 witness at a concrete run. -/
theorem skip_on_no_search_results_witness :
    (processOneArticle c5Article c5Env).success = false ∧
      (processOneArticle c5Article c5Env).reason = some "No Google results" ∧
      (processOneArticle c5Article c5Env).enhancerCalled = false ∧
      (processOneArticle c5Article c5Env).saveCalled = false ∧
      (processOneArticle c5Article c5Env).savedRecord = none :=
  skip_on_no_search_results c5Article c5Env rfl

/-! ## Claim C4 (EnhancedArticle references invariant) -/

theorem map_url_mk (f : String → String) (l : List String) :
    (l.map (fun u => (⟨u, f u⟩ : Reference))).map Reference.url = l := by
  induction l with
  | nil => rfl
  | cons a rest ih => simp [ih]

theorem savedRecord_shape (a : ArticleIn) (env : OracleEnv)
    (r : EnhancedArticle)
    (h : (processOneArticle a env).savedRecord = some r) :
    ∃ enhanced, r = mkEnhanced a enhanced
      (buildReferences (fun u => scrapeContentFromURL (env.scrape u))
        (searchGoogleForArticle env.searchResp) []) := by
  simp only [processOneArticle] at h
  revert h
  generalize buildReferences (fun u => scrapeContentFromURL (env.scrape u))
    (searchGoogleForArticle env.searchResp) [] = refs
  intro h
  by_cases h0 : (searchGoogleForArticle env.searchResp).length = 0
  · rw [if_pos h0] at h
    exact absurd h (by simp)
  · rw [if_neg h0] at h
    by_cases h1 : refs.length = 0
    · rw [if_pos h1] at h
      exact absurd h (by simp)
    · rw [if_neg h1] at h
      cases hai : env.ai a.title a.content refs with
      | none =>
        rw [hai] at h
        simp at h
      | some enhanced =>
        rw [hai] at h
        by_cases hsave : env.saveOk
        · simp [hsave] at h
          exact ⟨enhanced, h.symm⟩
        · simp [hsave] at h
          exact ⟨enhanced, h.symm⟩

/-- C4: every record passed to the persistence call carries at most 2
reference URLs, and each of them is a URL whose scraped content exceeded
500 characters. -/
theorem enhanced_references_invariant :
    ∀ (a : ArticleIn) (env : OracleEnv) (r : EnhancedArticle),
      (processOneArticle a env).savedRecord = some r →
      r.references.length ≤ 2 ∧
      ∀ u ∈ r.references, 500 < (scrapeContentFromURL (env.scrape u)).length := by
  intro a env r h
  obtain ⟨enhanced, rfl⟩ := savedRecord_shape a env r h
  have hrefs : (mkEnhanced a enhanced
      (buildReferences (fun u => scrapeContentFromURL (env.scrape u))
        (searchGoogleForArticle env.searchResp) [])).references =
      (searchGoogleForArticle env.searchResp).filter
        (fun u => keepRef (scrapeContentFromURL (env.scrape u))) := by
    simp only [mkEnhanced]
    rw [buildReferences_eq]
    simp only [List.nil_append]
    exact map_url_mk _ _
  rw [hrefs]
  constructor
  · have h1 := List.length_filter_le
      (fun u => keepRef (scrapeContentFromURL (env.scrape u)))
      (searchGoogleForArticle env.searchResp)
    have h2 : (searchGoogleForArticle env.searchResp).length ≤ 2 := by
      cases hresp : env.searchResp with
      | none => simp [searchGoogleForArticle]
      | some items =>
        rw [searchGoogle_eq, List.length_take]
        exact Nat.min_le_left _ _
    omega
  · intro u hu
    have hk := (List.mem_filter.mp hu).2
    simp only [keepRef, Bool.and_eq_true, decide_eq_true_eq] at hk
    exact hk.2

/-- A reference page yielding 501 characters of content. -/
def c4Doc : Doc :=
  { selText := fun s =>
      if s = "article" then some (String.mk (List.replicate 501 'c'))
      else none,
    selSrc := fun _ => none,
    bodyText := "" }

/-- A fully successful environment. -/
def c4Env : OracleEnv :=
  { searchResp := some ["https://ref.example/a"],
    scrape := fun _ => some c4Doc,
    ai := fun _ _ _ => some "ENHANCED",
    saveOk := true }

/-- The original article of the C4 witness run. -/
def c4Article : ArticleIn := { id := "42", title := "T", content := "C" }

/-- The record passed to persistence in the C4 witness run. -/
def c4Rec : EnhancedArticle :=
  ((processOneArticle c4Article c4Env).savedRecord).getD
    { title := "", content := "", type := "", originalArticleId := "",
      references := [] }

set_option maxRecDepth 40000 in
/-- C4 witness: the invariant instantiated at a concrete successful run. -/
theorem enhanced_references_invariant_witness :
    c4Rec.references.length ≤ 2 :=
  (enhanced_references_invariant c4Article c4Env c4Rec (by decide)).1

/-! ## Claim C10 (per-reference scrape is total, filter in orchestrator) -/

/-- A page where no selector matches and whose body is 3 characters. -/
def shortDoc : Doc :=
  { selText := fun _ => none, selSrc := fun _ => none, bodyText := "abc" }

/-- C10: `scrapeContentFromURL` returns a `String` at every input — `""`
on failure (never a null and, being total, never a thrown error) — and can
return non-empty strings of at most 500 characters, so the 500-character
minimum is enforced only by the orchestrator's `buildReferences` filter:
every kept reference's content is the scrape result of its URL and exceeds
500 characters, and conversely every URL whose scrape result exceeds 500
characters is kept. -/
theorem scrape_total_soft_fail :
    scrapeContentFromURL none = "" ∧
    (scrapeContentFromURL (some shortDoc) ≠ "" ∧
      (scrapeContentFromURL (some shortDoc)).length ≤ 500) ∧
    (∀ (scrape : String → String) (urls : List String),
      ∀ ref ∈ buildReferences scrape urls [],
        500 < ref.content.length ∧ ref.content = scrape ref.url ∧
        ref.url ∈ urls) ∧
    (∀ (scrape : String → String) (urls : List String) (u : String),
      u ∈ urls → 500 < (scrape u).length →
      u ∈ (buildReferences scrape urls []).map Reference.url) := by
  refine ⟨rfl, by decide, ?_, ?_⟩
  · intro scrape urls ref href
    rw [buildReferences_eq] at href
    simp only [List.nil_append] at href
    obtain ⟨u, hu, he⟩ := List.mem_map.mp href
    have hmem := (List.mem_filter.mp hu).1
    have hk := (List.mem_filter.mp hu).2
    simp only [keepRef, Bool.and_eq_true, decide_eq_true_eq] at hk
    rw [← he]
    exact ⟨hk.2, rfl, hmem⟩
  · intro scrape urls u hu hlen
    rw [buildReferences_eq]
    simp only [List.nil_append]
    rw [map_url_mk]
    rw [List.mem_filter]
    refine ⟨hu, ?_⟩
    simp only [keepRef, Bool.and_eq_true, decide_eq_true_eq, bne_iff_ne]
    refine ⟨?_, hlen⟩
    intro heq
    rw [heq] at hlen
    exact absurd hlen (by decide)

/-- C10 witness: a URL scraped to 501 characters is kept by the
orchestrator filter. -/
theorem scrape_total_soft_fail_witness :
    "u1" ∈ (buildReferences (fun _ => String.mk (List.replicate 501 'z'))
      ["u1"] []).map Reference.url :=
  scrape_total_soft_fail.2.2.2 (fun _ => String.mk (List.replicate 501 'z'))
    ["u1"] "u1" (by decide)
    (by rw [length_mk, List.length_replicate]; omega)

/-! ## Claim C6 (harvesting extractor discards insufficient candidates) -/

/-- C6: the harvesting extractor returns `none` whenever the extracted
title is missing or the processed content is shorter than 100 characters
(also on any fetch failure), and every returned record has a non-empty
title, at least 100 characters of content, type `original` and the
requested URL — never a partial record. -/
theorem harvest_extractor_discards :
    ∀ (url : String) (doc : Doc),
      (textLoop doc.selText titleSelectors "" = "" ∨
        (trimWs (collapseWs (contentLoop doc.selText 200
          articleContentSelectors ""))).length < 100 →
        scrapeArticleContent url (some doc) = none)
      ∧ scrapeArticleContent url none = none
      ∧ (∀ r, scrapeArticleContent url (some doc) = some r →
          r.title ≠ "" ∧ 100 ≤ r.content.length ∧ r.type = "original" ∧
          r.url = url) := by
  intro url doc
  refine ⟨?_, rfl, ?_⟩
  · intro h
    simp only [scrapeArticleContent]
    rcases h with h | h
    · rw [if_pos (Or.inl h)]
    · rw [if_pos (Or.inr (Or.inr h))]
  · intro r h
    simp only [scrapeArticleContent] at h
    by_cases hc : textLoop doc.selText titleSelectors "" = "" ∨
        trimWs (collapseWs (contentLoop doc.selText 200
          articleContentSelectors "")) = "" ∨
        (trimWs (collapseWs (contentLoop doc.selText 200
          articleContentSelectors ""))).length < 100
    · rw [if_pos hc] at h
      exact absurd h (by simp)
    · rw [if_neg hc] at h
      obtain ⟨h1, h23⟩ := not_or.mp hc
      obtain ⟨h2, h3⟩ := not_or.mp h23
      simp only [Option.some.injEq] at h
      rw [← h]
      refine ⟨h1, ?_, rfl, rfl⟩
      show 100 ≤ (trimWs (collapseWs (contentLoop doc.selText 200
        articleContentSelectors ""))).length
      omega

/-- A page where nothing matches: no title, no content. -/
def c6Doc : Doc :=
  { selText := fun _ => none, selSrc := fun _ => none,
    bodyText := "irrelevant" }

/-- C6 witness: a candidate with no title and no content is discarded. -/
theorem harvest_extractor_discards_witness :
    scrapeArticleContent "https://beyondchats.com/blogs/p" (some c6Doc) =
      none :=
  (harvest_extractor_discards "https://beyondchats.com/blogs/p" c6Doc).1
    (Or.inl (by decide))

/-! ## Claim C8 (LinkHarvester contract) -/

/-- C8: `scrapeArticleLinks` returns at most 5 links, with no duplicates,
each containing `blog`, free of `#`, and absolute (starting with `http`,
relative hrefs having been resolved against the site origin); the selector
loop stops as soon as a selector brings the collection to 5 or more; a
fetch failure yields `[]`. -/
theorem linkHarvester_contract :
    (∀ inp, (scrapeArticleLinks inp).length ≤ 5)
    ∧ scrapeArticleLinks none = []
    ∧ (∀ inp, (scrapeArticleLinks inp).Nodup)
    ∧ (∀ inp u, u ∈ scrapeArticleLinks inp →
        containsSub u "blog" = true ∧ containsSub u "#" = false ∧
        startsWith_ u "http" = true)
    ∧ (∀ (anchors : String → List String) (s : String) (rest : List String)
        (acc : List String),
        5 ≤ ((anchors s).foldl harvestStep acc).length →
        harvestLoop anchors (s :: rest) acc =
          (anchors s).foldl harvestStep acc) := by
  refine ⟨?_, rfl, ?_, ?_, ?_⟩
  · intro inp
    cases inp with
    | none => simp [scrapeArticleLinks]
    | some anchors =>
      show ((harvestLoop anchors linkSelectors []).take 5).length ≤ 5
      rw [List.length_take]
      exact Nat.min_le_left _ _
  · intro inp
    cases inp with
    | none => simp [scrapeArticleLinks]
    | some anchors =>
      have h := harvestLoop_inv anchors linkSelectors [] (by simp)
      exact h.1.sublist (List.take_sublist _ _)
  · intro inp u hu
    cases inp with
    | none => simp [scrapeArticleLinks] at hu
    | some anchors =>
      have h := harvestLoop_inv anchors linkSelectors [] (by simp)
      exact h.2 u (List.mem_of_mem_take hu)
  · intro anchors s rest acc h
    simp only [harvestLoop]
    rw [if_pos h]

/-- A listing page whose `article a` anchors include a relative link, a
junk link, a fragment link and a duplicate. -/
def c8Anchors : String → List String := fun s =>
  if s = "article a" then ["/blogs/a", "x", "/blogs/b#sec", "/blogs/a"]
  else []

/-- C8 witness: a harvested URL from a concrete listing page. -/
theorem linkHarvester_contract_witness :
    containsSub "https://beyondchats.com/blogs/a" "blog" = true ∧
      containsSub "https://beyondchats.com/blogs/a" "#" = false ∧
      startsWith_ "https://beyondchats.com/blogs/a" "http" = true :=
  linkHarvester_contract.2.2.2.1 (some c8Anchors)
    "https://beyondchats.com/blogs/a" (by decide)

/-! ## Claim C9 (harvest idempotence by url) -/

/-- C9: re-running the save loop over candidates that all already exist in
the store (matched by `url` lookup before creation) leaves the store
unchanged — zero new Article records. -/
theorem harvest_idempotent :
    ∀ (articles db : List ArticleRecord),
      (∀ a ∈ articles, ∃ stored ∈ db, stored.url = a.url) →
      saveArticlesLoop db articles = db := by
  intro articles
  induction articles with
  | nil => intro db _; rfl
  | cons a rest ih =>
    intro db h
    have hany : db.any (fun stored => stored.url == a.url) = true := by
      obtain ⟨stored, hstored, he⟩ := h a (by simp)
      rw [List.any_eq_true]
      exact ⟨stored, hstored, by simp [he]⟩
    simp only [saveArticlesLoop]
    rw [if_pos hany]
    exact ih db (fun x hx => h x (by simp [hx]))

/-- A stored article record. -/
def c9Rec : ArticleRecord :=
  { title := "T", content := "C", url := "https://beyondchats.com/blogs/a",
    author := "A", imageUrl := none, type := "original" }

/-- C9 witness: re-harvesting an already-stored article creates nothing. -/
theorem harvest_idempotent_witness :
    saveArticlesLoop [c9Rec] [c9Rec] = [c9Rec] :=
  harvest_idempotent [c9Rec] [c9Rec] (by decide)
